import Mathlib

/-
Verification of the publish/version-resolution pipeline of `src/publish.ts`.

The TypeScript source is shallowly embedded as pure Lean functions.  Stateful
or effectful steps (filesystem reads, network calls, the interactive prompt)
are made explicit: every pipeline entry point returns the ordered list of
side effects it performed together with its result, and the behaviour of the
external collaborators (registry client, manifest store, packager, credential
store, prompt) is supplied through an environment record, so that each source
branch corresponds to a case split on that environment.
-/

/-- Manifest record as used by `publish.ts` (`publisher`, `name`, `version`,
`enableProposedApi`). -/
structure Manifest where
  publisher : String
  name : String
  version : String
  enableProposedApi : Bool
deriving DecidableEq

/-- A version record of a published extension; the code only reads its
`version` field (`v.version === manifest.version`). -/
structure VersionRecord where
  version : String
deriving DecidableEq

/-- The registry's view of an artifact as returned by `getExtension` with
`ExtensionQueryFlags.IncludeVersions`: the code only reads `versions`. -/
structure PublishedExtension where
  versions : List VersionRecord
deriving DecidableEq

/-- Values a promise chain in the source can reject with: a plain
`new Error(msg)`, a `JSON.parse` failure (a `SyntaxError` in JS, kept as a
separate constructor because it is a distinct error class), a plain string
passed to `Promise.reject`, and an HTTP error carrying a `statusCode`. -/
inductive JsErr where
  | error (message : String)
  | parseError (message : String)
  | strReject (s : String)
  | apiErr (statusCode : Nat) (message : String)
deriving DecidableEq

/-- Models the expression `err && err.message || ''` of the final catch in
`_publish`: a rejected plain string has no `message` property, so it yields
the empty string; Error-like values yield their message. -/
def errMessage : JsErr → String
  | .error m => m
  | .parseError m => m
  | .strReject _ => ""
  | .apiErr _ m => m

/-- Substring test, modelling `/Invalid Resource/.test(message)` (a regex
with no metacharacters is a plain substring search). -/
def containsSubstr (s pat : String) : Bool :=
  (s.splitOn pat).length != 1

/-- The remediation hint appended by `_publish` when a failure message
matches `/Invalid Resource/`. -/
def patHintText : String :=
  "\n\nYou're likely using an expired Personal Access Token, please get a new PAT.\nMore info: https://aka.ms/vscodepat"

/-- Final catch of `_publish`: if the failure's message matches
`/Invalid Resource/`, append the remediation hint to the message (mutating
`err.message`); otherwise re-reject the error unchanged.  Assigning
`.message` on a rejected plain string has no observable effect, which the
`strReject` branch reflects. -/
def patHint (e : JsErr) : JsErr :=
  if containsSubstr (errMessage e) "Invalid Resource" then
    match e with
    | .error m => .error (m ++ patHintText)
    | .parseError m => .parseError (m ++ patHintText)
    | .strReject s => .strReject s
    | .apiErr c m => .apiErr c (m ++ patHintText)
  else e

/-- Network calls the code can issue against the gallery API. -/
inductive NetCall where
  | getExtension (publisher name : String)
  | createExtension
  | updateExtension (publisher name : String)
  | deleteExtension (publisher name : String)
deriving DecidableEq

/-- Outcome of the registry existence query `api.getExtension`. -/
inductive GetExtensionResult where
  | success (ext : PublishedExtension)
  | failure (statusCode : Nat) (message : String)
deriving DecidableEq

/-- Behaviour of the registry client for one invocation: the response to the
existence query and the outcomes of the possible transfer/delete calls. -/
structure RegistryEnv where
  getExtensionResult : GetExtensionResult
  createResult : Except JsErr Unit
  updateResult : Except JsErr Unit
  deleteResult : Except JsErr Unit

/-- The full identity string of `_publish`: the interpolation of
`manifest.publisher`, a dot, `manifest.name`, an `@` and
`manifest.version`. -/
def fullNameOf (m : Manifest) : String :=
  m.publisher ++ "." ++ m.name ++ "@" ++ m.version

/-- The collision test `extension && extension.versions.some(v => v.version
=== manifest.version)` of `_publish` (a `null` extension short-circuits to
false). -/
def hasDup (extOpt : Option PublishedExtension) (version : String) : Bool :=
  match extOpt with
  | some ext => ext.versions.any (fun v => v.version == version)
  | none => false

/-- The publish transactor `_publish` of `publish.ts`, embedding the chain
`getExtension → catch 404→null → duplicate check → create/update → catch
409 → catch Invalid Resource`.  Returns the ordered network calls issued
and the settled result. -/
def _publish (env : RegistryEnv) (m : Manifest) : List NetCall × Except JsErr Unit :=
  let fullName := fullNameOf m
  let q := NetCall.getExtension m.publisher m.name
  let extRes : Except JsErr (Option PublishedExtension) :=
    match env.getExtensionResult with
    | .success ext => .ok (some ext)
    | .failure code msg => if code = 404 then .ok none else .error (.apiErr code msg)
  match extRes with
  | .error e => ([q], .error (patHint e))
  | .ok extOpt =>
    if hasDup extOpt m.version then
      ([q], .error (patHint (.strReject (fullName ++ " already exists. Version number cannot be the same."))))
    else
      let transfer : NetCall × Except JsErr Unit :=
        match extOpt with
        | some _ => (NetCall.updateExtension m.publisher m.name, env.updateResult)
        | none => (NetCall.createExtension, env.createResult)
      match transfer.2 with
      | .ok _ => ([q, transfer.1], .ok ())
      | .error e =>
        let e2 : JsErr :=
          match e with
          | .apiErr 409 _ => .strReject (fullName ++ " already exists.")
          | _ => e
        ([q, transfer.1], .error (patHint e2))

/-- An entry of the zip archive as surfaced by `yauzl`: its `fileName`, the
`data` chunks its read stream emits in order, and the possible failures of
`openReadStream` (its callback error) and of the stream itself (an `error`
event). -/
structure ZipEntry where
  fileName : String
  chunks : List (List Nat)
  openError : Option String
  streamError : Option String
deriving DecidableEq

/-- Events emitted by the zipfile during enumeration: one `entry` event per
archive entry, in archive order, followed by a single `end` event. -/
inductive ZipEvent where
  | entry (e : ZipEntry)
  | endOfArchive
deriving DecidableEq

/-- The event trace of an archive: its entries in order, then `end`. -/
def archiveEvents (entries : List ZipEntry) : List ZipEvent :=
  entries.map ZipEvent.entry ++ [ZipEvent.endOfArchive]

/-- ASCII lowering of a string, character by character. -/
def lowerAscii (s : String) : String :=
  String.mk (s.toList.map Char.toLower)

/-- The entry-name test of `readManifestFromPackage`:
regex `^extension\/package\.json$` with the case-insensitive flag — the
pattern is all ASCII literals, so the test is an ASCII case-insensitive
comparison against the fixed path. -/
def matchesManifestPath (s : String) : Bool :=
  lowerAscii s == "extension/package.json"

/-- Reading one matching entry: `openReadStream` failure or a stream `error`
event rejects with that error; otherwise the emitted chunks are concatenated
in order (`Buffer.concat(buffers)`) and handed to the JSON parse.  The parse
itself (`JSON.parse` of the UTF-8 decoded bytes) is external runtime code,
supplied as the parameter `parse`; its failure rejects with the parser's
`SyntaxError`. -/
def readEntry (parse : List Nat → Except String Manifest) (e : ZipEntry) :
    Except JsErr Manifest :=
  match e.openError with
  | some msg => .error (.error msg)
  | none =>
    match e.streamError with
    | some msg => .error (.error msg)
    | none =>
      match parse e.chunks.flatten with
      | .ok m => .ok m
      | .error msg => .error (.parseError msg)

deriving instance DecidableEq for Except

/-- State of the scan in `readManifestFromPackage`: whether the promise has
settled (and with what), and whether the `end` listener installed by
`zipfile.once('end', onEnd)` is still attached. -/
structure ScanState where
  result : Option (Except JsErr Manifest)
  endAttached : Bool
deriving DecidableEq

/-- One step of the scan.  A non-matching entry is skipped.  A matching
entry first removes the `end` listener, then (if the promise has not yet
settled) settles it with the outcome of reading the entry.  The `end` event
rejects with `Manifest not found` only while its listener is attached and
the promise is unsettled. -/
def stepEvent (parse : List Nat → Except String Manifest)
    (st : ScanState) : ZipEvent → ScanState
  | .entry e =>
    if matchesManifestPath e.fileName then
      let st1 : ScanState := { st with endAttached := false }
      match st1.result with
      | some _ => st1
      | none => { st1 with result := some (readEntry parse e) }
    else st
  | .endOfArchive =>
    if st.endAttached && st.result.isNone then
      { st with result := some (.error (.error "Manifest not found")) }
    else st

/-- Running the scan over a list of events from the initial state (promise
pending, `end` listener attached). -/
def runScan (parse : List Nat → Except String Manifest)
    (events : List ZipEvent) : ScanState :=
  events.foldl (stepEvent parse) ⟨none, true⟩

/-- Manifest extraction from an opened archive: the promise's settled value
after the full event trace.  The `none` fallback is unreachable (the `end`
event always settles a pending promise) and repeats the end-of-archive
rejection. -/
def extractManifest (parse : List Nat → Except String Manifest)
    (entries : List ZipEntry) : Except JsErr Manifest :=
  match (runScan parse (archiveEvents entries)).result with
  | some r => r
  | none => .error (.error "Manifest not found")

/-- The full `readManifestFromPackage` of `publish.ts`: a `yauzl.open`
failure rejects with that error; otherwise the archive's entries are
scanned. -/
def readManifestFromPackage (parse : List Nat → Except String Manifest)
    (archive : Except String (List ZipEntry)) : Except JsErr Manifest :=
  match archive with
  | .error msg => .error (.error msg)
  | .ok entries => extractManifest parse entries

/-- Model of the JavaScript `String.prototype.split` with the one-character
separator `'.'`, over the character list of the string: splitting an empty
string yields one empty segment, and every separator occurrence starts a
new segment. -/
def splitOnDot : List Char → List (List Char)
  | [] => [[]]
  | c :: rest =>
    if c = '.' then [] :: splitOnDot rest
    else
      match splitOnDot rest with
      | [] => [[c]]
      | p :: ps => (c :: p) :: ps

/-- A parsed semantic version, release part only. -/
structure SemVer where
  major : Nat
  minor : Nat
  patch : Nat
deriving DecidableEq

/-- Decimal value of a digit string. -/
def digitsToNat (l : List Char) : Nat :=
  l.foldl (fun acc c => acc * 10 + (c.toNat - 48)) 0

/-- Modelled from the spec: a numeric component of a semantic version for
the external `semver` library — a nonempty digit string without leading
zeros. -/
def parseNumComp (s : List Char) : Option Nat :=
  if s.isEmpty then none
  else if s.length > 1 && s.headD 'x' = '0' then none
  else if s.all Char.isDigit then some (digitsToNat s) else none

/-- Modelled from the spec: parsing of a `major.minor.patch` version string
by the external `semver` library (§4.1 of the spec; prerelease and build
metadata are not exercised by this code's callers). -/
def semverParse (v : String) : Option SemVer :=
  match splitOnDot v.toList with
  | [a, b, c] =>
    match parseNumComp a, parseNumComp b, parseNumComp c with
    | some ma, some mi, some pa => some ⟨ma, mi, pa⟩
    | _, _, _ => none
  | _ => none

/-- Canonical rendering of a parsed semantic version. -/
def semverFormat (s : SemVer) : String :=
  toString s.major ++ "." ++ toString s.minor ++ "." ++ toString s.patch

/-- Modelled from the spec: `semver.valid` — the canonical form of a valid
version string, `null` otherwise. -/
def semverValid (v : String) : Option String :=
  (semverParse v).map semverFormat

/-- Modelled from the spec: `semver.inc` — increments the named component
resetting the lower ones (§4.1), and returns `null` when the current
version string is not a valid semantic version. -/
def semverInc (v : String) (release : String) : Option String :=
  (semverParse v).map (fun s =>
    if release = "major" then semverFormat ⟨s.major + 1, 0, 0⟩
    else if release = "minor" then semverFormat ⟨s.major, s.minor + 1, 0⟩
    else semverFormat ⟨s.major, s.minor, s.patch + 1⟩)

/-- Side effects the pipeline can perform, in the order they are issued:
manifest store reads/writes (a write records the manifest it was given and
the new value of its `version` field, which `semver.inc` can have set to
`null`), archive opening, the read stream `_publish` opens on the package,
the external packager call, the credential-store lookup, the interactive
prompt, and network calls. -/
inductive Eff where
  | fsReadManifest (cwd : String)
  | fsWriteManifest (cwd : String) (m : Manifest) (newVersion : Option String)
  | fsOpenArchive (path : String)
  | fsCreateReadStream (path : String)
  | packCall (packagePath : String) (cwd : Option String)
  | getPublisherCall (publisher : String)
  | readPrompt (text : String)
  | net (c : NetCall)
deriving DecidableEq

/-- The `IPublishOptions` record. -/
structure PublishOptions where
  packagePath : Option String
  version : Option String
  cwd : Option String
  pat : Option String
  baseContentUrl : Option String
  baseImagesUrl : Option String

/-- Behaviour of the external collaborators for one invocation: the
registry client, `process.cwd()`, the manifest store's read result, the
archive behind `options.packagePath` (or its open error), the external
`JSON.parse`, the packager's result, the temporary file name, the
credential store, and the prompt answer. -/
structure PipelineEnv where
  registry : RegistryEnv
  processCwd : String
  readManifestResult : Except JsErr Manifest
  archive : Except String (List ZipEntry)
  parse : List Nat → Except String Manifest
  packResult : Except JsErr Manifest
  tmpPath : String
  publisherPat : String → Except JsErr String
  answer : String

/-- The `versionBump` function of `publish.ts`: with no directive it is a
no-op; otherwise it reads the working-directory manifest, computes the next
version (`semver.inc` for the three bump keywords, `semver.valid` for an
explicit version, rejecting `Invalid version ...` when invalid), and writes
the manifest back exactly when the computed value differs from the current
`manifest.version` (strict `!==` comparison, so a `null` from `semver.inc`
always differs and is written). -/
def versionBump (env : PipelineEnv) (cwd : String) (version : Option String) :
    List Eff × Except JsErr Unit :=
  match version with
  | none => ([], .ok ())
  | some v =>
    match env.readManifestResult with
    | .error e => ([.fsReadManifest cwd], .error e)
    | .ok manifest =>
      let next : Except JsErr (Option String) :=
        if v = "major" || v = "minor" || v = "patch" then
          .ok (semverInc manifest.version v)
        else
          match semverValid v with
          | some u => .ok (some u)
          | none => .error (.strReject ("Invalid version " ++ v))
      match next with
      | .error e => ([.fsReadManifest cwd], .error e)
      | .ok nv =>
        if nv ≠ some manifest.version then
          ([.fsReadManifest cwd, .fsWriteManifest cwd manifest nv], .ok ())
        else
          ([.fsReadManifest cwd], .ok ())

/-- Resolution of the access token: an explicit `options.pat` is used as
is; otherwise the credential store is consulted
(`getPublisher(publisher).then(p => p.pat)`). -/
def resolvePat (env : PipelineEnv) (patOpt : Option String) (publisher : String) :
    List Eff × Except JsErr String :=
  match patOpt with
  | some p => ([], .ok p)
  | none => ([.getPublisherCall publisher], env.publisherPat publisher)

/-- The message of the proposed-API rejection in `publish`. -/
def proposedApiMsg : String :=
  "Extensions using proposed API (enableProposedApi: true) can't be published to the Marketplace"

/-- Continuation of `publish` once manifest and packagePath are
resolved: the proposed-API gate throws before the token is resolved; then
the token is resolved and `_publish` runs (which first opens a read stream
on the package, then talks to the registry). -/
def publishWithResult (env : PipelineEnv) (opts : PublishOptions)
    (m : Manifest) (packagePath : String) : List Eff × Except JsErr Unit :=
  if m.enableProposedApi then
    ([], .error (.error proposedApiMsg))
  else
    let pr := resolvePat env opts.pat m.publisher
    match pr.2 with
    | .error e => (pr.1, .error e)
    | .ok _ =>
      let res := _publish env.registry m
      (pr.1 ++ Eff.fsCreateReadStream packagePath :: res.1.map Eff.net, res.2)

/-- The head of `publish`: resolve the manifest/packagePath pair.
With an explicit `options.packagePath` it is extracted from the archive
(after the mutual-exclusion check against `options.version`); otherwise
`versionBump` runs against the working directory, a temporary name is
allocated and the external packager is invoked. -/
def resolveSource (env : PipelineEnv) (opts : PublishOptions) :
    List Eff × Except JsErr (Manifest × String) :=
  match opts.packagePath with
  | some pp =>
    if opts.version.isSome then
      ([], .error (.strReject "Not supported: packagePath and version."))
    else
      match readManifestFromPackage env.parse env.archive with
      | .ok m => ([.fsOpenArchive pp], .ok (m, pp))
      | .error e => ([.fsOpenArchive pp], .error e)
  | none =>
    let vb := versionBump env (opts.cwd.getD env.processCwd) opts.version
    match vb.2 with
    | .error e => (vb.1, .error e)
    | .ok _ =>
      match env.packResult with
      | .ok m => (vb.1 ++ [.packCall env.tmpPath opts.cwd], .ok (m, env.tmpPath))
      | .error e => (vb.1 ++ [.packCall env.tmpPath opts.cwd], .error e)

/-- The exported `publish` of `publish.ts`: source resolution followed by
the proposed-API gate, token resolution and the publish transactor. -/
def publish (env : PipelineEnv) (opts : PublishOptions) :
    List Eff × Except JsErr Unit :=
  match resolveSource env opts with
  | (effs, .error e) => (effs, .error e)
  | (effs, .ok (m, pp)) =>
    let rest := publishWithResult env opts m pp
    (effs ++ rest.1, rest.2)

/-- The destructuring `const [publisher, name] = options.id.split('.')` of
`unpublish`: the first two segments of the split (missing segments are
`undefined`, kept as `none`). -/
def splitId (id : String) : Option String × Option String :=
  let parts := (splitOnDot id.toList).map (fun l => String.mk l)
  (parts.get? 0, parts.get? 1)

/-- Follows the spec's words for claim C9, for comparison with `splitId`:
the identity pair is the split on the FIRST separator — publisher is the
substring before the first `'.'`, name the entire remainder after it. -/
def specSplitId (id : String) : String × String :=
  match splitOnDot id.toList with
  | [] => ("", "")
  | p :: rest => (String.mk p, String.intercalate "." (rest.map (fun l => String.mk l)))

/-- JavaScript template-literal rendering of a possibly-`undefined` string. -/
def jsStr : Option String → String
  | some s => s
  | none => "undefined"

/-- The `IUnpublishOptions` record (the fields `unpublish` reads). -/
structure UnpublishOptions where
  id : Option String
  cwd : Option String
  pat : Option String

/-- Identity resolution of `unpublish`: an explicit `options.id` is split on
`'.'` with no I/O; otherwise the working-directory manifest is read and its
`publisher`/`name` destructured. -/
def resolveUnpublishId (env : PipelineEnv) (opts : UnpublishOptions) :
    List Eff × Except JsErr (String × String) :=
  match opts.id with
  | some id =>
    let pn := splitId id
    ([], .ok (jsStr pn.1, jsStr pn.2))
  | none =>
    match env.readManifestResult with
    | .ok m => ([.fsReadManifest (opts.cwd.getD env.processCwd)], .ok (m.publisher, m.name))
    | .error e => ([.fsReadManifest (opts.cwd.getD env.processCwd)], .error e)

/-- The confirmation prompt text of `unpublish`. -/
def promptText (fullName : String) : String :=
  "This will FOREVER delete '" ++ fullName ++ "'! Are you sure? [y/N] "

/-- The confirmation test `/^y$/i.test(answer)`: the answer is exactly the
single letter `y`, case-insensitively. -/
def confirms (answer : String) : Bool :=
  answer == "y" || answer == "Y"

/-- The exported `unpublish` of `publish.ts`.  Identity resolution is
followed by the pat promise, which is CREATED EAGERLY: with no explicit
`options.pat` the credential-store lookup is initiated before the prompt is
shown.  The prompt answer then either rejects with `Aborted` (skipping the
rest of the chain, so no delete call) or lets the chain await the token and
issue the delete call. -/
def unpublish (env : PipelineEnv) (opts : UnpublishOptions) :
    List Eff × Except JsErr Unit :=
  match resolveUnpublishId env opts with
  | (effs, .error e) => (effs, .error e)
  | (effs, .ok (publisher, name)) =>
    let fullName := publisher ++ "." ++ name
    let pr := resolvePat env opts.pat publisher
    let prompt := Eff.readPrompt (promptText fullName)
    if confirms env.answer then
      match pr.2 with
      | .error e => (effs ++ pr.1 ++ [prompt], .error e)
      | .ok _ =>
        match env.registry.deleteResult with
        | .ok _ =>
          (effs ++ pr.1 ++ [prompt, .net (.deleteExtension publisher name)], .ok ())
        | .error e =>
          (effs ++ pr.1 ++ [prompt, .net (.deleteExtension publisher name)], .error e)
    else
      (effs ++ pr.1 ++ [prompt], .error (.strReject "Aborted"))

/-- A non-matching entry leaves the scan state unchanged. -/
theorem stepEvent_skip (parse : List Nat → Except String Manifest) (st : ScanState)
    (e : ZipEntry) (h : matchesManifestPath e.fileName = false) :
    stepEvent parse st (ZipEvent.entry e) = st := by
  simp [stepEvent, h]

/-- A run over only non-matching entries leaves the scan state unchanged. -/
theorem foldl_entries_skip (parse : List Nat → Except String Manifest) (st : ScanState) :
    ∀ entries : List ZipEntry,
      (∀ e ∈ entries, matchesManifestPath e.fileName = false) →
      (entries.map ZipEvent.entry).foldl (stepEvent parse) st = st
  | [], _ => rfl
  | e :: es, h => by
    have he : matchesManifestPath e.fileName = false := h e (List.mem_cons_self e es)
    simp only [List.map_cons, List.foldl_cons]
    rw [stepEvent_skip parse st e he]
    exact foldl_entries_skip parse st es (fun x hx => h x (List.mem_cons_of_mem e hx))

/-- Once the promise has settled and the end listener is removed, no further
event changes the state. -/
theorem stepEvent_absorb (parse : List Nat → Except String Manifest)
    (r : Except JsErr Manifest) (ev : ZipEvent) :
    stepEvent parse ⟨some r, false⟩ ev = ⟨some r, false⟩ := by
  cases ev with
  | entry e => by_cases h : matchesManifestPath e.fileName <;> simp [stepEvent, h]
  | endOfArchive => simp [stepEvent]

/-- The settled state is absorbing for whole event runs. -/
theorem foldl_absorb (parse : List Nat → Except String Manifest)
    (r : Except JsErr Manifest) :
    ∀ evs : List ZipEvent, evs.foldl (stepEvent parse) ⟨some r, false⟩ = ⟨some r, false⟩
  | [] => rfl
  | ev :: evs => by
    simp only [List.foldl_cons, stepEvent_absorb]
    exact foldl_absorb parse r evs

/-- Claim C3: for every archive containing no entry whose name
case-insensitively matches `extension/package.json`, extraction fails with
the `Manifest not found` error, and this failure fires only at the
end-of-archive event, never before: after all entry events alone, the
promise is still unsettled. -/
theorem extract_manifest_not_found (parse : List Nat → Except String Manifest)
    (entries : List ZipEntry)
    (h : ∀ e ∈ entries, matchesManifestPath e.fileName = false) :
    extractManifest parse entries = .error (.error "Manifest not found") ∧
    (runScan parse (entries.map ZipEvent.entry)).result = none := by
  have h1 : (entries.map ZipEvent.entry).foldl (stepEvent parse) ⟨none, true⟩ = ⟨none, true⟩ :=
    foldl_entries_skip parse ⟨none, true⟩ entries h
  constructor
  · unfold extractManifest runScan archiveEvents
    rw [List.foldl_append, h1]
    rfl
  · unfold runScan
    rw [h1]

/-- Claim C3 witness: a two-entry archive with no manifest entry. -/
theorem extract_manifest_not_found_witness :
    extractManifest (fun _ => Except.error "Unexpected token")
        [⟨"extension/readme.md", [[1, 2]], none, none⟩, ⟨"other.txt", [], none, none⟩] =
      .error (.error "Manifest not found") ∧
    (runScan (fun _ => Except.error "Unexpected token")
        ([⟨"extension/readme.md", [[1, 2]], none, none⟩,
          ⟨"other.txt", [], none, none⟩].map ZipEvent.entry)).result = none :=
  extract_manifest_not_found (fun _ => Except.error "Unexpected token") _ (by decide)

/-- Claim C4: for every archive containing an entry case-insensitively
matching `extension/package.json`, extraction returns the parse of that
entry's chunks concatenated in order, independently of its position among
unrelated entries; a parse failure is surfaced as a malformed-manifest
(`SyntaxError`) rejection. -/
theorem extract_manifest_found (parse : List Nat → Except String Manifest)
    (pre post : List ZipEntry) (e : ZipEntry)
    (hpre : ∀ x ∈ pre, matchesManifestPath x.fileName = false)
    (he : matchesManifestPath e.fileName = true)
    (hopen : e.openError = none) (hstream : e.streamError = none) :
    extractManifest parse (pre ++ e :: post) =
      (match parse e.chunks.flatten with
       | .ok m => Except.ok m
       | .error msg => Except.error (.parseError msg)) := by
  have h1 : (pre.map ZipEvent.entry).foldl (stepEvent parse) ⟨none, true⟩ = ⟨none, true⟩ :=
    foldl_entries_skip parse ⟨none, true⟩ pre hpre
  have h2 : stepEvent parse ⟨none, true⟩ (ZipEvent.entry e) = ⟨some (readEntry parse e), false⟩ := by
    simp [stepEvent, he]
  unfold extractManifest runScan archiveEvents
  rw [List.map_append, List.map_cons, List.append_assoc, List.cons_append,
    List.foldl_append, h1, List.foldl_cons, h2, foldl_absorb]
  simp [readEntry, hopen, hstream]

/-- Claim C4 witness: the matching entry appears between two unrelated
entries, under an upper-case file name, with its content split over two
chunks. -/
theorem extract_manifest_found_witness :
    extractManifest
        (fun bs => if bs = [10, 20, 30] then Except.ok ⟨"acme", "tool", "1.0.0", false⟩
                   else Except.error "Unexpected token")
        ([⟨"extension/readme.md", [[1, 2]], none, none⟩] ++
          ⟨"Extension/Package.JSON", [[10], [20, 30]], none, none⟩ ::
            [⟨"other.txt", [], none, none⟩]) =
      (match (fun bs => if bs = [10, 20, 30] then Except.ok (⟨"acme", "tool", "1.0.0", false⟩ : Manifest)
                        else Except.error "Unexpected token")
          (([[10], [20, 30]] : List (List Nat)).flatten) with
       | .ok m => Except.ok m
       | .error msg => Except.error (.parseError msg)) :=
  extract_manifest_found _ _ _ _ (by decide) (by decide) rfl rfl

/-- A rejected plain string passes through the final catch unchanged: it has
no `message` property, so the Invalid Resource test sees an empty string,
and assigning to its `message` would be a no-op anyway. -/
theorem patHint_strReject (s : String) : patHint (.strReject s) = .strReject s := by
  unfold patHint
  split <;> rfl

/-- Claim C1: when the registry query returns an existing artifact and one
of its version records equals `manifest.version` exactly, the transactor
rejects with the duplicate-version message naming the full identity
`publisher.name@version`, having issued only the query — no create and no
update call. -/
theorem publish_duplicate_version (env : RegistryEnv) (m : Manifest)
    (ext : PublishedExtension)
    (hq : env.getExtensionResult = .success ext)
    (hv : ext.versions.any (fun v => v.version == m.version) = true) :
    _publish env m =
      ([NetCall.getExtension m.publisher m.name],
       .error (.strReject (fullNameOf m ++ " already exists. Version number cannot be the same."))) ∧
    NetCall.createExtension ∉ (_publish env m).1 ∧
    (∀ p n, NetCall.updateExtension p n ∉ (_publish env m).1) := by
  have heq : _publish env m =
      ([NetCall.getExtension m.publisher m.name],
       .error (.strReject (fullNameOf m ++ " already exists. Version number cannot be the same."))) := by
    unfold _publish
    rw [hq]
    simp [hasDup, hv, patHint_strReject]
  refine ⟨heq, ?_, ?_⟩
  · rw [heq]
    simp
  · intro p n
    rw [heq]
    simp

/-- Claim C1 witness: manifest `acme.tool@1.0.0` against a registry
reporting versions `0.9.0` and `1.0.0`. -/
theorem publish_duplicate_version_witness :
    _publish ⟨.success ⟨[⟨"0.9.0"⟩, ⟨"1.0.0"⟩]⟩, .ok (), .ok (), .ok ()⟩
        ⟨"acme", "tool", "1.0.0", false⟩ =
      ([NetCall.getExtension "acme" "tool"],
       .error (.strReject (fullNameOf ⟨"acme", "tool", "1.0.0", false⟩ ++
         " already exists. Version number cannot be the same."))) ∧
    NetCall.createExtension ∉
      (_publish ⟨.success ⟨[⟨"0.9.0"⟩, ⟨"1.0.0"⟩]⟩, .ok (), .ok (), .ok ()⟩
        ⟨"acme", "tool", "1.0.0", false⟩).1 ∧
    NetCall.updateExtension "acme" "tool" ∉
      (_publish ⟨.success ⟨[⟨"0.9.0"⟩, ⟨"1.0.0"⟩]⟩, .ok (), .ok (), .ok ()⟩
        ⟨"acme", "tool", "1.0.0", false⟩).1 := by
  have h := publish_duplicate_version
    ⟨.success ⟨[⟨"0.9.0"⟩, ⟨"1.0.0"⟩]⟩, .ok (), .ok (), .ok ()⟩
    ⟨"acme", "tool", "1.0.0", false⟩ ⟨[⟨"0.9.0"⟩, ⟨"1.0.0"⟩]⟩ rfl (by decide)
  exact ⟨h.1, h.2.1, h.2.2 "acme" "tool"⟩

/-- Claim C2: a 404 on the existence query is treated as absence and leads
to a create-transfer; any other query failure propagates (through the final
catch) with no transfer issued; an existing artifact with no version
collision leads to an update-transfer. -/
theorem publish_query_outcomes (env : RegistryEnv) (m : Manifest) :
    (∀ msg, env.getExtensionResult = .failure 404 msg →
      (_publish env m).1 = [NetCall.getExtension m.publisher m.name,
        NetCall.createExtension]) ∧
    (∀ code msg, env.getExtensionResult = .failure code msg → code ≠ 404 →
      (_publish env m).1 = [NetCall.getExtension m.publisher m.name] ∧
      (_publish env m).2 = .error (patHint (.apiErr code msg))) ∧
    (∀ ext, env.getExtensionResult = .success ext →
      ext.versions.any (fun v => v.version == m.version) = false →
      (_publish env m).1 = [NetCall.getExtension m.publisher m.name,
        NetCall.updateExtension m.publisher m.name]) := by
  refine ⟨?_, ?_, ?_⟩
  · intro msg hq
    unfold _publish
    rw [hq]
    cases hc : env.createResult <;> simp [hasDup, hc]
  · intro code msg hq h404
    unfold _publish
    rw [hq]
    simp [h404]
  · intro ext hq hnodup
    unfold _publish
    rw [hq]
    cases hu : env.updateResult <;> simp [hasDup, hnodup, hu]

/-- Claim C2 witness: the three outcomes at concrete registries — a 404
reply, a 500 reply, and an existing artifact without the version. -/
theorem publish_query_outcomes_witness :
    (_publish ⟨.failure 404 "gone", .ok (), .ok (), .ok ()⟩
        ⟨"acme", "tool", "1.0.0", false⟩).1 =
      [NetCall.getExtension "acme" "tool", NetCall.createExtension] ∧
    ((_publish ⟨.failure 500 "boom", .ok (), .ok (), .ok ()⟩
        ⟨"acme", "tool", "1.0.0", false⟩).1 = [NetCall.getExtension "acme" "tool"] ∧
     (_publish ⟨.failure 500 "boom", .ok (), .ok (), .ok ()⟩
        ⟨"acme", "tool", "1.0.0", false⟩).2 = .error (patHint (.apiErr 500 "boom"))) ∧
    (_publish ⟨.success ⟨[⟨"0.9.0"⟩]⟩, .ok (), .ok (), .ok ()⟩
        ⟨"acme", "tool", "1.0.0", false⟩).1 =
      [NetCall.getExtension "acme" "tool", NetCall.updateExtension "acme" "tool"] :=
  ⟨(publish_query_outcomes ⟨.failure 404 "gone", .ok (), .ok (), .ok ()⟩
      ⟨"acme", "tool", "1.0.0", false⟩).1 "gone" rfl,
   (publish_query_outcomes ⟨.failure 500 "boom", .ok (), .ok (), .ok ()⟩
      ⟨"acme", "tool", "1.0.0", false⟩).2.1 500 "boom" rfl (by decide),
   (publish_query_outcomes ⟨.success ⟨[⟨"0.9.0"⟩]⟩, .ok (), .ok (), .ok ()⟩
      ⟨"acme", "tool", "1.0.0", false⟩).2.2 ⟨[⟨"0.9.0"⟩]⟩ rfl (by decide)⟩

/-- The version-bump step only touches the manifest store: it issues no
network call. -/
theorem versionBump_no_net (env : PipelineEnv) (cwd : String) (v : Option String)
    (c : NetCall) : Eff.net c ∉ (versionBump env cwd v).1 := by
  cases v with
  | none => simp [versionBump]
  | some v =>
    cases hr : env.readManifestResult with
    | error e => simp [versionBump, hr]
    | ok manifest =>
      simp only [versionBump, hr]
      split
      · simp
      · split <;> simp

/-- Source resolution (archive extraction or version bump plus packaging)
issues no network call. -/
theorem resolveSource_no_net (env : PipelineEnv) (opts : PublishOptions)
    (c : NetCall) : Eff.net c ∉ (resolveSource env opts).1 := by
  cases hp : opts.packagePath with
  | some pp =>
    simp only [resolveSource, hp]
    split
    · simp
    · split <;> simp
  | none =>
    simp only [resolveSource, hp]
    split
    · exact versionBump_no_net env (opts.cwd.getD env.processCwd) opts.version c
    · split <;>
        · simp only [List.mem_append]
          rintro (h | h)
          · exact versionBump_no_net env (opts.cwd.getD env.processCwd) opts.version c h
          · simp at h

/-- A sample environment for concrete runs: a registry with no existing
artifact, a working-directory manifest `acme.tool@1.0.0`, a packager that
reproduces it, and a credential store that knows every publisher. -/
def baseEnv : PipelineEnv where
  registry := ⟨.failure 404 "not found", .ok (), .ok (), .ok ()⟩
  processCwd := "/work"
  readManifestResult := .ok ⟨"acme", "tool", "1.0.0", false⟩
  archive := .error "no archive"
  parse := fun _ => .error "Unexpected token"
  packResult := .ok ⟨"acme", "tool", "1.0.0", false⟩
  tmpPath := "/tmp/pkg.vsix"
  publisherPat := fun _ => .ok "token"
  answer := "n"

/-- Claim C5: whenever the resolved manifest has `enableProposedApi` set,
`publish` rejects with the proposed-API message and issues no network call
at all — neither the existence query nor any transfer. -/
theorem publish_proposed_api (env : PipelineEnv) (opts : PublishOptions)
    (m : Manifest) (pp : String)
    (hres : (resolveSource env opts).2 = .ok (m, pp))
    (hm : m.enableProposedApi = true) :
    (publish env opts).2 = .error (.error proposedApiMsg) ∧
    (∀ c, Eff.net c ∉ (publish env opts).1) := by
  have hpw : publishWithResult env opts m pp = ([], .error (.error proposedApiMsg)) := by
    simp [publishWithResult, hm]
  have hpub : publish env opts = ((resolveSource env opts).1, .error (.error proposedApiMsg)) := by
    unfold publish
    rcases hr : resolveSource env opts with ⟨effs, res⟩
    have : res = .ok (m, pp) := by rw [← hres, hr]
    subst this
    simp [hpw, hr]
  refine ⟨by rw [hpub], ?_⟩
  intro c
  rw [hpub]
  exact resolveSource_no_net env opts c

/-- Claim C5 witness: the build path produces a proposed-API manifest; the
rejection carries the proposed-API message and the query call is absent
from the trace. -/
theorem publish_proposed_api_witness :
    (publish { baseEnv with packResult := .ok ⟨"acme", "tool", "1.0.0", true⟩ }
        ⟨none, none, none, none, none, none⟩).2 = .error (.error proposedApiMsg) ∧
    Eff.net (NetCall.getExtension "acme" "tool") ∉
      (publish { baseEnv with packResult := .ok ⟨"acme", "tool", "1.0.0", true⟩ }
        ⟨none, none, none, none, none, none⟩).1 := by
  have h := publish_proposed_api
    { baseEnv with packResult := .ok ⟨"acme", "tool", "1.0.0", true⟩ }
    ⟨none, none, none, none, none, none⟩ ⟨"acme", "tool", "1.0.0", true⟩
    "/tmp/pkg.vsix" rfl rfl
  exact ⟨h.1, h.2 (NetCall.getExtension "acme" "tool")⟩

/-- Claim C6: with both an explicit package path and a version directive,
`publish` rejects immediately with the mutual-exclusion message and an
empty effect trace — no filesystem access, no packager call, no network
call. -/
theorem publish_mutex (env : PipelineEnv) (opts : PublishOptions) (pp : String)
    (hp : opts.packagePath = some pp) (hv : opts.version.isSome = true) :
    publish env opts = ([], .error (.strReject "Not supported: packagePath and version.")) := by
  unfold publish resolveSource
  rw [hp]
  simp [hv]

/-- Claim C6 witness: packagePath `ext.vsix` together with version
directive `1.0.1`. -/
theorem publish_mutex_witness :
    publish baseEnv ⟨some "ext.vsix", some "1.0.1", none, none, none, none⟩ =
      ([], .error (.strReject "Not supported: packagePath and version.")) :=
  publish_mutex baseEnv ⟨some "ext.vsix", some "1.0.1", none, none, none, none⟩
    "ext.vsix" rfl rfl

/-- Claim C10: when the working-directory manifest's version is not a valid
semantic version and the directive is one of the three bump keywords,
`versionBump` does not reject with an invalid-version error: `semver.inc`
yields `null`, which differs from the current version string, so the
manifest is written back with its `version` field set to `null`. -/
theorem versionBump_invalid_current (env : PipelineEnv) (cwd : String)
    (m : Manifest) (d : String)
    (hread : env.readManifestResult = .ok m)
    (hv : semverParse m.version = none)
    (hd : d = "major" ∨ d = "minor" ∨ d = "patch") :
    versionBump env cwd (some d) =
      ([.fsReadManifest cwd, .fsWriteManifest cwd m none], .ok ()) := by
  have hb : (d = "major" ∨ d = "minor" ∨ d = "patch" : Prop) := hd
  simp only [versionBump, hread]
  rcases hd with h | h | h <;>
    subst h <;>
    simp [semverInc, hv]

/-- Claim C10 witness: a manifest whose version is the invalid string
`banana`, bumped with the `patch` directive. -/
theorem versionBump_invalid_current_witness :
    versionBump { baseEnv with readManifestResult := .ok ⟨"acme", "tool", "banana", false⟩ }
        "/proj" (some "patch") =
      ([.fsReadManifest "/proj", .fsWriteManifest "/proj" ⟨"acme", "tool", "banana", false⟩ none],
       .ok ()) :=
  versionBump_invalid_current
    { baseEnv with readManifestResult := .ok ⟨"acme", "tool", "banana", false⟩ }
    "/proj" ⟨"acme", "tool", "banana", false⟩ "patch" rfl (by decide)
    (Or.inr (Or.inr rfl))

/-- Identity resolution of `unpublish` touches at most the manifest store. -/
theorem resolveUnpublishId_fs_only (env : PipelineEnv) (opts : UnpublishOptions) :
    ∀ eff ∈ (resolveUnpublishId env opts).1, ∃ cwd, eff = Eff.fsReadManifest cwd := by
  cases hi : opts.id with
  | some id => simp [resolveUnpublishId, hi]
  | none =>
    cases hr : env.readManifestResult with
    | ok m => simp [resolveUnpublishId, hi, hr]
    | error e => simp [resolveUnpublishId, hi, hr]

/-- Token resolution issues no network call. -/
theorem resolvePat_no_net (env : PipelineEnv) (patOpt : Option String)
    (publisher : String) (c : NetCall) :
    Eff.net c ∉ (resolvePat env patOpt publisher).1 := by
  cases patOpt <;> simp [resolvePat]

/-- Claim C7: an answer other than a case-insensitive `y` makes `unpublish`
reject with `Aborted` and issue no delete call; a case-insensitive `y`
(with resolvable credentials) leads to exactly one delete call, for the
resolved publisher/name pair. -/
theorem unpublish_confirmation (env : PipelineEnv) (opts : UnpublishOptions)
    (pub name : String)
    (hres : (resolveUnpublishId env opts).2 = .ok (pub, name)) :
    (confirms env.answer = false →
      (unpublish env opts).2 = .error (.strReject "Aborted") ∧
      ∀ p n, Eff.net (.deleteExtension p n) ∉ (unpublish env opts).1) ∧
    (confirms env.answer = true →
      ∀ patv, (resolvePat env opts.pat pub).2 = .ok patv →
        ((unpublish env opts).1.count (Eff.net (.deleteExtension pub name)) = 1 ∧
         ∀ p n, Eff.net (.deleteExtension p n) ∈ (unpublish env opts).1 →
           p = pub ∧ n = name)) := by
  rcases hr : resolveUnpublishId env opts with ⟨effs, res⟩
  have hres2 : res = .ok (pub, name) := by rw [← hres, hr]
  subst hres2
  have heffs : ∀ eff ∈ effs, ∃ cwd, eff = Eff.fsReadManifest cwd := by
    have h := resolveUnpublishId_fs_only env opts
    rw [hr] at h
    exact h
  have hnotin : ∀ p n, Eff.net (.deleteExtension p n) ∉ effs := by
    intro p n hmem
    rcases heffs _ hmem with ⟨cwd, h⟩
    simp at h
  have hpatin : ∀ p n, Eff.net (.deleteExtension p n) ∉ (resolvePat env opts.pat pub).1 :=
    fun p n => resolvePat_no_net env opts.pat pub (.deleteExtension p n)
  unfold unpublish
  rw [hr]
  constructor
  · intro hc
    simp only [hc, Bool.false_eq_true, if_false]
    refine ⟨by trivial, ?_⟩
    intro p n
    simp only [List.mem_append, List.mem_singleton]
    rintro ((h | h) | h)
    · exact hnotin p n h
    · exact hpatin p n h
    · simp at h
  · intro hc patv hpat
    simp only [hc, if_true]
    rw [hpat]
    have hcount : ∀ r : List Eff × Except JsErr Unit,
        r.1 = effs ++ (resolvePat env opts.pat pub).1 ++
          [Eff.readPrompt (promptText (pub ++ "." ++ name)),
           Eff.net (.deleteExtension pub name)] →
        (r.1.count (Eff.net (.deleteExtension pub name)) = 1 ∧
         ∀ p n, Eff.net (.deleteExtension p n) ∈ r.1 → p = pub ∧ n = name) := by
      intro r hr1
      rw [hr1]
      constructor
      · rw [List.count_append, List.count_append,
          List.count_eq_zero.mpr (hnotin pub name),
          List.count_eq_zero.mpr (hpatin pub name)]
        simp [List.count_cons]
      · intro p n
        simp only [List.mem_append, List.mem_cons, List.mem_singleton]
        rintro ((h | h) | h | h)
        · exact absurd h (hnotin p n)
        · exact absurd h (hpatin p n)
        · simp at h
        · simp at h
          exact ⟨h.1, h.2⟩
    cases hd : env.registry.deleteResult with
    | ok u => exact hcount _ rfl
    | error e => exact hcount _ rfl

/-- Claim C7 witness: identifier `acme.tool`; answer `nah` aborts with no
delete call, answer `Y` issues exactly one delete call. -/
theorem unpublish_confirmation_witness :
    ((unpublish { baseEnv with answer := "nah" } ⟨some "acme.tool", none, none⟩).2 =
        .error (.strReject "Aborted") ∧
     Eff.net (.deleteExtension "acme" "tool") ∉
       (unpublish { baseEnv with answer := "nah" } ⟨some "acme.tool", none, none⟩).1) ∧
    (unpublish { baseEnv with answer := "Y" } ⟨some "acme.tool", none, none⟩).1.count
        (Eff.net (.deleteExtension "acme" "tool")) = 1 :=
  have ha := unpublish_confirmation { baseEnv with answer := "nah" }
    ⟨some "acme.tool", none, none⟩ "acme" "tool" (by decide)
  have hc := unpublish_confirmation { baseEnv with answer := "Y" }
    ⟨some "acme.tool", none, none⟩ "acme" "tool" (by decide)
  ⟨⟨(ha.1 (by decide)).1, (ha.1 (by decide)).2 "acme" "tool"⟩,
   (hc.2 (by decide) "token" rfl).1⟩

/-- Claim C8 counterexample: with no explicit pat and identifier
`acme.tool`, the user aborts (answer `n`) yet the credential lookup
(`getPublisher`) has already been initiated — the claim that neither the
credential lookup nor the delete call is performed on abort is false. -/
theorem unpublish_credential_counterexample :
    (unpublish { baseEnv with answer := "n" } ⟨some "acme.tool", none, none⟩).2 =
      .error (.strReject "Aborted") ∧
    Eff.getPublisherCall "acme" ∈
      (unpublish { baseEnv with answer := "n" } ⟨some "acme.tool", none, none⟩).1 := by
  decide

/-- The tail of the `unpublish` trace after the confirmation prompt, when
no explicit pat was supplied: a single delete call when the user confirmed
and the credential lookup succeeded, nothing otherwise. -/
def unpublishTail (env : PipelineEnv) (pub name : String) : List Eff :=
  if confirms env.answer then
    match env.publisherPat pub with
    | .ok _ => [Eff.net (.deleteExtension pub name)]
    | .error _ => []
  else []

/-- Claim C8 as amended: without an explicit pat option, the delete call
still happens only after the user has confirmed and is never issued on
abort, but the credential lookup is initiated before the confirmation
prompt, regardless of the answer: the trace is the identity-resolution
effects (which contain no prompt), then the `getPublisher` lookup, then the
prompt, then at most one delete call. -/
theorem unpublish_credential_eager (env : PipelineEnv) (opts : UnpublishOptions)
    (pub name : String)
    (hres : (resolveUnpublishId env opts).2 = .ok (pub, name))
    (hpat : opts.pat = none) :
    ((unpublish env opts).1 =
      (resolveUnpublishId env opts).1 ++ Eff.getPublisherCall pub ::
        Eff.readPrompt (promptText (pub ++ "." ++ name)) ::
          unpublishTail env pub name) ∧
    (∀ t, Eff.readPrompt t ∉ (resolveUnpublishId env opts).1) ∧
    (confirms env.answer = false →
      ∀ p n, Eff.net (.deleteExtension p n) ∉ (unpublish env opts).1) := by
  rcases hr : resolveUnpublishId env opts with ⟨effs, res⟩
  have hres2 : res = .ok (pub, name) := by rw [← hres, hr]
  subst hres2
  have heffs : ∀ eff ∈ effs, ∃ cwd, eff = Eff.fsReadManifest cwd := by
    have h := resolveUnpublishId_fs_only env opts
    rw [hr] at h
    exact h
  have hu : unpublish env opts =
      (effs ++ Eff.getPublisherCall pub ::
        Eff.readPrompt (promptText (pub ++ "." ++ name)) ::
          unpublishTail env pub name,
       (unpublish env opts).2) := by
    unfold unpublish
    rw [hr]
    simp only [resolvePat, hpat]
    unfold unpublishTail
    cases hc : confirms env.answer with
    | false => simp
    | true =>
      cases hp : env.publisherPat pub with
      | ok patv =>
        cases hd : env.registry.deleteResult with
        | ok u => simp
        | error e => simp
      | error e => simp
  refine ⟨by rw [hu], ?_, ?_⟩
  · intro t hmem
    rcases heffs _ hmem with ⟨cwd, h⟩
    simp at h
  · intro hc p n
    rw [show (unpublish env opts).1 =
        effs ++ Eff.getPublisherCall pub ::
          Eff.readPrompt (promptText (pub ++ "." ++ name)) ::
            unpublishTail env pub name from by rw [hu]]
    simp only [List.mem_append, List.mem_cons]
    rintro (h | h | h | h)
    · rcases heffs _ h with ⟨cwd, h2⟩
      simp at h2
    · simp at h
    · simp at h
    · rw [unpublishTail, hc] at h
      simp at h

/-- Claim C8 amended witness: identifier `acme.tool`, no explicit pat,
answer `no`: the lookup precedes the prompt in the trace and no delete call
is issued. -/
theorem unpublish_credential_eager_witness :
    ((unpublish { baseEnv with answer := "no" } ⟨some "acme.tool", none, none⟩).1 =
      (resolveUnpublishId { baseEnv with answer := "no" } ⟨some "acme.tool", none, none⟩).1 ++
        Eff.getPublisherCall "acme" ::
          Eff.readPrompt (promptText ("acme" ++ "." ++ "tool")) ::
            unpublishTail { baseEnv with answer := "no" } "acme" "tool") ∧
    Eff.readPrompt (promptText ("acme" ++ "." ++ "tool")) ∉
      (resolveUnpublishId { baseEnv with answer := "no" } ⟨some "acme.tool", none, none⟩).1 ∧
    Eff.net (.deleteExtension "acme" "tool") ∉
      (unpublish { baseEnv with answer := "no" } ⟨some "acme.tool", none, none⟩).1 :=
  have h := unpublish_credential_eager { baseEnv with answer := "no" }
    ⟨some "acme.tool", none, none⟩ "acme" "tool" (by decide) rfl
  ⟨h.1, h.2.1 (promptText ("acme" ++ "." ++ "tool")), h.2.2 (by decide) "acme" "tool"⟩

/-- The split always produces at least one segment. -/
theorem splitOnDot_ne_nil (l : List Char) : splitOnDot l ≠ [] := by
  cases l with
  | nil => simp [splitOnDot]
  | cons c rest =>
    unfold splitOnDot
    split
    · simp
    · split <;> simp

/-- Splitting a string that starts with a dot-free block followed by a dot
yields that block as first segment. -/
theorem splitOnDot_append (pre rest : List Char) (hpre : '.' ∉ pre) :
    splitOnDot (pre ++ '.' :: rest) = pre :: splitOnDot rest := by
  induction pre with
  | nil => simp [splitOnDot]
  | cons c pre ih =>
    have hc : ¬ c = '.' := fun h => hpre (h ▸ List.mem_cons_self c pre)
    have ih2 := ih (fun h => hpre (List.mem_cons_of_mem c h))
    simp only [List.cons_append, splitOnDot, if_neg hc, List.append_eq, ih2]

/-- The first segment of the split is the longest dot-free leading block. -/
theorem splitOnDot_head (l : List Char) :
    (splitOnDot l).get? 0 = some (l.takeWhile (fun c => c != '.')) := by
  induction l with
  | nil => simp [splitOnDot]
  | cons c rest ih =>
    by_cases hc : c = '.'
    · subst hc
      simp [splitOnDot, List.takeWhile_cons]
    · unfold splitOnDot
      rw [if_neg hc]
      cases h : splitOnDot rest with
      | nil => exact absurd h (splitOnDot_ne_nil rest)
      | cons p ps =>
        rw [h] at ih
        have hp : p = rest.takeWhile (fun c => c != '.') := by
          simpa using ih
        subst hp
        have hb : (c != '.') = true := by simp [hc]
        simp [List.takeWhile_cons, hb]

/-- Claim C9 counterexample: for the identifier `acme.tool.extra` the code
resolves name to `tool` (the second dot-separated segment), not to the
entire remainder `tool.extra` after the first separator as the claim
states. -/
theorem unpublish_split_counterexample :
    (splitId "acme.tool.extra").2 = some "tool" ∧
    (specSplitId "acme.tool.extra").2 = "tool.extra" ∧
    (splitId "acme.tool.extra").2 ≠ some (specSplitId "acme.tool.extra").2 := by
  decide

/-- Claim C9 as amended: for an identifier of the form `pre ++ "." ++ rest`
with `pre` dot-free, the resolved publisher is `pre` and the resolved name
is the longest dot-free leading block of `rest` — the segment up to the
next separator, not the entire remainder. -/
theorem unpublish_id_split (pre rest : List Char) (hpre : '.' ∉ pre) :
    splitId (String.mk (pre ++ '.' :: rest)) =
      (some (String.mk pre),
       some (String.mk (rest.takeWhile (fun c => c != '.')))) := by
  unfold splitId
  have ht : (String.mk (pre ++ '.' :: rest)).toList = pre ++ '.' :: rest := rfl
  rw [ht, splitOnDot_append pre rest hpre]
  simp only [List.map_cons, List.get?]
  have hh := splitOnDot_head rest
  rw [List.get?_map, hh]
  rfl

/-- Claim C9 amended witness: identifier `a.b.c` resolves to publisher `a`
and name `b`. -/
theorem unpublish_id_split_witness :
    splitId (String.mk (['a'] ++ '.' :: ['b', '.', 'c'])) =
      (some (String.mk ['a']),
       some (String.mk (['b', '.', 'c'].takeWhile (fun c => c != '.')))) :=
  unpublish_id_split ['a'] ['b', '.', 'c'] (by decide)
